import Mathlib

/-!
Verification of the HAR (HTTP Archive) cookie/URL extraction utility.

The development shallowly embeds the two modules
`browser_use/browser/utils/har_loader.py` (class `HarLoader`) and
`browser_use/browser/extensions/har_extension.py` (class `HarExtension`).
JSON documents are modelled structurally (a HAR document is a list of
entries, each with a request URL, request cookie list and response status),
machine floats are modelled as exact decimal values (every number arising
here is a finite decimal literal, represented exactly), and the filesystem
is an abstract map from paths to file contents.
-/

/-- Exact value of a Python number: `mant / 10 ^ shift`.  Values are kept
canonical (`shift = 0`, or `mant` not divisible by 10), so structural
equality coincides with numeric equality.  All numbers arising in this
program are finite decimal literals, represented exactly. -/
structure PyNum where
  mant : ℤ
  shift : ℕ
  deriving DecidableEq, Repr

/-- The Python integer `n` as a `PyNum`. -/
def pyInt (n : ℤ) : PyNum := ⟨n, 0⟩

/-- Canonicalize `n / 10 ^ e`: strip factors of ten shared by numerator and
denominator.  Structural recursion on `e` (at most `e` steps are needed). -/
def canonDec : ℤ → ℕ → ℤ × ℕ
  | n, 0 => (n, 0)
  | n, e + 1 => if n % 10 = 0 then canonDec (n / 10) e else (n, e + 1)

/-- The canonical `PyNum` with value `m * 10 ^ e`. -/
def mkPyNum (m : ℤ) (e : ℤ) : PyNum :=
  if 0 ≤ e then ⟨m * 10 ^ e.toNat, 0⟩
  else
    let p := canonDec m (-e).toNat
    ⟨p.1, p.2⟩

/-- A JSON value as it may appear in a cookie's `expires` field.  All
composite JSON values (arrays and objects) behave identically under the
code's `float()` coercion attempt (they raise `TypeError`), so they are
represented by the single payload-free constructor `jcomposite`. -/
inductive JVal where
  | jnull
  | jbool (b : Bool)
  | jnum (q : PyNum)
  | jstr (s : String)
  | jcomposite
  deriving DecidableEq, Repr

/-- Whitespace characters stripped by Python's `float(str)` conversion. -/
def isPySpace (c : Char) : Bool :=
  c = ' ' || c = '\t' || c = '\n' || c = '\r' || c.toNat = 11 || c.toNat = 12

/-- Numeric value of a digit string (most significant first). -/
def natOfDigits (ds : List Char) : ℕ :=
  ds.foldl (fun a c => 10 * a + (c.toNat - 48)) 0

/-- Core of Python's `float(str)` parsing on an already-stripped character
list: optional sign, decimal digits with optional fractional part, optional
exponent.  Exotic forms accepted by CPython (`inf`, `nan`, underscore digit
separators) are outside the modelled input space; every value handled here
is finite and represented exactly. -/
def pyFloatCore (cs : List Char) : Option PyNum :=
  let signAndRest : ℤ × List Char :=
    match cs with
    | '+' :: t => (1, t)
    | '-' :: t => (-1, t)
    | t => (1, t)
  let sgn := signAndRest.1
  let cs1 := signAndRest.2
  let ip := cs1.takeWhile Char.isDigit
  let cs2 := cs1.dropWhile Char.isDigit
  let fracAndRest : List Char × List Char :=
    match cs2 with
    | '.' :: t => (t.takeWhile Char.isDigit, t.dropWhile Char.isDigit)
    | t => ([], t)
  let fp := fracAndRest.1
  let cs3 := fracAndRest.2
  if ip.isEmpty && fp.isEmpty then none
  else
    let m : ℤ := sgn * (natOfDigits (ip ++ fp) : ℤ)
    match cs3 with
    | [] => some (mkPyNum m (-(fp.length : ℤ)))
    | e :: t =>
      if e = 'e' || e = 'E' then
        let esignAndRest : ℤ × List Char :=
          match t with
          | '+' :: u => (1, u)
          | '-' :: u => (-1, u)
          | u => (1, u)
        let ed := esignAndRest.2.takeWhile Char.isDigit
        let t2 := esignAndRest.2.dropWhile Char.isDigit
        if ed.isEmpty || !t2.isEmpty then none
        else some (mkPyNum m (esignAndRest.1 * (natOfDigits ed : ℤ) - (fp.length : ℤ)))
      else none

/-- Python's `float(str)`: strip surrounding whitespace, then parse a signed
decimal literal; `none` models a raised `ValueError`. -/
def pyFloat (s : String) : Option PyNum :=
  pyFloatCore (((s.toList.dropWhile isPySpace).reverse.dropWhile isPySpace).reverse)

/-- Python's `str.endswith`: the character list of the candidate ending
equals the corresponding tail of the subject (an empty candidate always
matches). -/
def strEndsWith (s post : String) : Bool :=
  let a := s.toList
  let b := post.toList
  a.drop (a.length - b.length) == b

/-- Step of scheme recognition in `urllib.parse.urlsplit`: after an initial
letter, consume letters, digits, `+`, `-`, `.` up to a colon; any other
character (or no colon) means the URL has no scheme. -/
def schemeRestAux : List Char → Option (List Char)
  | [] => none
  | c :: cs =>
    if c = ':' then some cs
    else if c.isAlphanum || c = '+' || c = '-' || c = '.' then schemeRestAux cs
    else none

/-- Scheme recognition of `urllib.parse.urlsplit`: a scheme is a leading letter
followed by scheme characters and a colon; returns the remainder after the
colon, or `none` when no valid scheme is present. -/
def schemeRest : List Char → Option (List Char)
  | [] => none
  | c :: cs => if c.isAlpha then schemeRestAux cs else none

/-- Model of `urllib.parse.urlparse(url).netloc`: remove the characters CPython
deletes from URLs (tab, CR, LF), strip any scheme, and if the remainder
starts with `//`, take everything up to the next `/`, `?` or `#`; otherwise
the netloc is empty.  The netloc is the full authority component: it keeps
any port and user-info. -/
def netlocOf (url : String) : String :=
  let cs := url.toList.filter fun c => !(c = '\t' || c = '\r' || c = '\n')
  let rest := (schemeRest cs).getD cs
  match rest with
  | '/' :: '/' :: t => String.mk (t.takeWhile fun c => !(c = '/' || c = '?' || c = '#'))
  | _ => ""


/-- A raw cookie object from an entry's `request.cookies` list.  `none`
models an absent key (the code reads every field with `dict.get`).  The
`name`, `value`, `domain`, `path` and `sameSite` fields are strings and the
flags booleans whenever present, as in the HAR format; `expires` may hold
any JSON value. -/
structure RawCookie where
  name : Option String := none
  value : Option String := none
  domain : Option String := none
  path : Option String := none
  expires : Option JVal := none
  httpOnly : Option Bool := none
  secure : Option Bool := none
  sameSite : Option String := none
  deriving DecidableEq, Repr

/-- A normalized cookie object in the shape handed to
`context.add_cookies` (har_loader.py lines 85-94). -/
structure CookieObj where
  name : Option String
  value : Option String
  domain : Option String
  path : String
  expires : JVal
  httpOnly : Bool
  secure : Bool
  sameSite : String
  deriving DecidableEq, Repr

/-- One HAR entry: the request URL (`none` when absent, read with default
`''`), the request cookie list (absent reads as `[]`) and the response
status (`none` when absent, read with default `0`). -/
structure Entry where
  url : Option String := none
  cookies : List RawCookie := []
  status : Option Int := none
  deriving DecidableEq, Repr

/-- A parsed HAR document: `log.entries`, read with defaults
(`har_data.get('log', {}).get('entries', [])`). -/
structure HarDoc where
  entries : List Entry
  deriving DecidableEq, Repr

/-- Python `str()` of an optional string, as interpolated by the f-string
building the deduplication key: `None` renders as the string `"None"`. -/
def pyStr : Option String → String
  | none => "None"
  | some s => s

/-- The deduplication key of a cookie (har_loader.py line 67): the single
interpolated string `name@domain`, not the pair of fields. -/
def cookieKey (c : RawCookie) : String :=
  pyStr c.name ++ "@" ++ pyStr c.domain

/-- Normalization of the `expires` field (har_loader.py lines 75-83),
returning the stored value and whether the invalid-value warning fires.
`cookie.get('expires', -1)` yields `-1` when absent; a `None` value skips
the numeric check (`expires_value is not None`) and is stored unchanged;
booleans satisfy `isinstance(_, (int, float))` in Python and are stored
unchanged; a string is coerced with `float()`, falling back to `-1` with a
warning when that raises; composite values always fail coercion. -/
def expiresNorm : Option JVal → JVal × Bool
  | none => (.jnum (pyInt (-1)), false)
  | some .jnull => (.jnull, false)
  | some (.jbool b) => (.jbool b, false)
  | some (.jnum q) => (.jnum q, false)
  | some (.jstr s) =>
    match pyFloat s with
    | some q => (.jnum q, false)
    | none => (.jnum (pyInt (-1)), true)
  | some .jcomposite => (.jnum (pyInt (-1)), true)

/-- Build the Playwright-format cookie object (har_loader.py lines 85-94)
and report whether the `expires` warning fired. -/
def normalizeCookie (c : RawCookie) : CookieObj × Bool :=
  let e := expiresNorm c.expires
  ({ name := c.name
     value := c.value
     domain := c.domain
     path := c.path.getD ("/")
     expires := e.1
     httpOnly := c.httpOnly.getD false
     secure := c.secure.getD false
     sameSite := c.sameSite.getD ("Lax") }, e.2)

/-- The domain filter as applied in both operations (har_loader.py lines
59-62 and 144-147): a `None` or empty `filter_domains` is falsy, so no
check runs; otherwise the entry survives when
`urlparse(url).netloc` ends with at least one listed string. -/
def domainKept (fd : Option (List String)) (url : String) : Bool :=
  match fd with
  | none => true
  | some [] => true
  | some ds => ds.any fun d => strEndsWith (netlocOf url) d

/-- The status filter (har_loader.py lines 140-141): a `None` or empty
`status_filter` is falsy, so no check runs; otherwise the entry survives
when its status is a member of the list. -/
def statusKept (sf : Option (List Int)) (st : Int) : Bool :=
  match sf with
  | none => true
  | some [] => true
  | some l => l.contains st

/-- The per-entry cookie loop (har_loader.py lines 65-95): walk the
request cookie list with the `processed_cookies` set, skipping keys already
seen, otherwise recording the key and emitting the normalized object.
Returns the emitted objects, the names cited by `expires` warnings, and the
final contents of the set. -/
def processCookies (seen : List String) :
    List RawCookie → List CookieObj × List String × List String
  | [] => ([], [], seen)
  | c :: cs =>
    if cookieKey c ∈ seen then processCookies seen cs
    else
      let n := normalizeCookie c
      let r := processCookies (cookieKey c :: seen) cs
      (n.1 :: r.1, (if n.2 then [pyStr c.name] else []) ++ r.2.1, r.2.2)

/-- The entry loop of `load_cookies_from_har` (har_loader.py lines 55-104):
entries failing the domain filter are skipped entirely (`continue`); for
kept entries the request cookies are processed against the shared
`processed_cookies` set.  The loop over response `set-cookie` headers
(lines 98-103) has an empty body and is omitted.  Returns emitted cookie
objects, warning subjects, and the final deduplication set. -/
def loadEntries (fd : Option (List String)) (seen : List String) :
    List Entry → List CookieObj × List String × List String
  | [] => ([], [], seen)
  | e :: es =>
    if domainKept fd (e.url.getD ("")) then
      let p := processCookies seen e.cookies
      let r := loadEntries fd p.2.2 es
      (p.1 ++ r.1, p.2.1 ++ r.2.1, r.2.2)
    else loadEntries fd seen es

/-- Pure core of `HarLoader.load_cookies_from_har` on a parsed document:
the returned cookie list and the warning subjects, with the
`processed_cookies` set starting empty (har_loader.py line 53). -/
def loadCookiesPure (fd : Option (List String)) (doc : HarDoc) :
    List CookieObj × List String :=
  let r := loadEntries fd [] doc.entries
  (r.1, r.2.1)

/-- The entry loop of `extract_urls_from_har` (har_loader.py lines
137-149): status filter first, then domain filter, then append the URL. -/
def extractUrlsGo (fd : Option (List String)) (sf : Option (List Int)) :
    List Entry → List String
  | [] => []
  | e :: es =>
    if statusKept sf (e.status.getD 0) then
      if domainKept fd (e.url.getD ("")) then
        (e.url.getD ("")) :: extractUrlsGo fd sf es
      else extractUrlsGo fd sf es
    else extractUrlsGo fd sf es

/-- Pure core of `HarLoader.extract_urls_from_har` on a parsed document. -/
def extractUrlsPure (fd : Option (List String)) (sf : Option (List Int))
    (doc : HarDoc) : List String :=
  extractUrlsGo fd sf doc.entries

/-- Contents of a filesystem path: missing, an existing file that is not
decodable JSON, or an existing file decoding to a HAR document. -/
inductive FileContent where
  | missing
  | invalidJson
  | validJson (doc : HarDoc)

/-- Termination of one extraction call: the `FileNotFoundError`, the
re-raised `json.JSONDecodeError`, a propagated `add_cookies` failure, or a
normal return. -/
inductive Outcome (α : Type) where
  | fileNotFound
  | parseError
  | injectError
  | ok (a : α)
  deriving DecidableEq

/-- Returns `true` exactly on a normal return. -/
def Outcome.isOk : Outcome α → Bool
  | .ok _ => true
  | _ => false

/-- Observable shape of one call: its outcome, whether JSON decoding was
ever attempted, and whether this call logged an error before the failure
propagated. -/
structure CallResult (α : Type) where
  result : Outcome α
  parseAttempted : Bool
  errorLogged : Bool
  deriving DecidableEq

/-- The browser context collaborator: `add_cookies` may raise, modelled by
a predicate on the injected batch. -/
structure BrowserCtx where
  add_cookies_fails : List CookieObj → Bool

namespace HarLoader

/-- Model of `HarLoader.load_cookies_from_har` (har_loader.py lines 22-110) over an
abstract filesystem `fs`.  A missing path raises `FileNotFoundError` from
the explicit existence check (lines 39-41), before any decoding; an
undecodable file raises `json.JSONDecodeError`, which is logged and
re-raised (lines 45-49); otherwise the cookies are extracted and, when the
list is non-empty, passed to `context.add_cookies` (lines 106-108), whose
failure propagates unlogged by this function. -/
def load_cookies_from_har (fs : String → FileContent) (path : String)
    (fd : Option (List String)) (ctx : BrowserCtx) :
    CallResult (List CookieObj × List String) :=
  match fs path with
  | .missing => ⟨.fileNotFound, false, false⟩
  | .invalidJson => ⟨.parseError, true, true⟩
  | .validJson doc =>
    let r := loadCookiesPure fd doc
    if r.1.isEmpty then ⟨.ok r, true, false⟩
    else if ctx.add_cookies_fails r.1 then ⟨.injectError, true, false⟩
    else ⟨.ok r, true, false⟩

/-- Model of `HarLoader.extract_urls_from_har` (har_loader.py lines 113-151) over an
abstract filesystem.  There is no existence check: `open` raises
`FileNotFoundError` on a missing path before `json.load` runs, and a
decode failure propagates directly with no handler and no logging. -/
def extract_urls_from_har (fs : String → FileContent) (path : String)
    (fd : Option (List String)) (sf : Option (List Int)) :
    CallResult (List String) :=
  match fs path with
  | .missing => ⟨.fileNotFound, false, false⟩
  | .invalidJson => ⟨.parseError, true, false⟩
  | .validJson doc => ⟨.ok (extractUrlsPure fd sf doc), true, false⟩

end HarLoader

/-- The session object yielded by `context.get_session()`: its `context`
attribute is the underlying browser context, or falsy when not
initialized. -/
structure Session where
  context : Option BrowserCtx

/-- Termination of `HarExtension.load_from_har`: the logged early return
(no exception), an exception logged and re-raised, or success. -/
inductive AdapterResult where
  | softFail
  | raisedLogged
  | success
  deriving DecidableEq

namespace HarExtension

/-- Model of `HarExtension.load_from_har` (har_extension.py lines 16-41).  The
caller-supplied session resolves to `none` (a null handle) or to a session
whose `context` may be absent; either way the function logs an error and
returns normally, without touching the loader.  Otherwise it delegates to
`HarLoader.load_cookies_from_har` and any exception is logged with its
message and re-raised.  The second component records whether extraction
was attempted. -/
def load_from_har (sess : Option Session) (fs : String → FileContent)
    (path : String) (fd : Option (List String)) : AdapterResult × Bool :=
  match sess with
  | none => (.softFail, false)
  | some s =>
    match s.context with
    | none => (.softFail, false)
    | some ctx =>
      match (HarLoader.load_cookies_from_har fs path fd ctx).result with
      | .ok _ => (.success, true)
      | _ => (.raisedLogged, true)

/-- Model of `HarExtension.extract_urls_from_har` (har_extension.py lines 43-64):
a plain delegation to the loader. -/
def extract_urls_from_har (fs : String → FileContent) (path : String)
    (fd : Option (List String)) (sf : Option (List Int)) :
    CallResult (List String) :=
  HarLoader.extract_urls_from_har fs path fd sf

/-- The wrapper called with neither filter: its declared defaults are
`filter_domains=None` and `status_filter=[200]`. -/
def extract_urls_from_har_default (fs : String → FileContent)
    (path : String) : CallResult (List String) :=
  extract_urls_from_har fs path none (some [200])

end HarExtension

/-- The loader `HarLoader.extract_urls_from_har` called with neither filter: its
declared defaults are `filter_domains=None` and `status_filter=None`. -/
def loaderExtractUrlsDefault (fs : String → FileContent) (path : String) :
    CallResult (List String) :=
  HarLoader.extract_urls_from_har fs path none none

/-- Cross-call process state: the only candidate for leakage between calls
is the deduplication set. -/
structure ProcState where
  processed_cookies : List String

/-- One invocation of cookie extraction within a process, exposing state:
`processed_cookies = set()` is constructed fresh and locally at line 53,
ignoring anything a previous call left behind; the state after the call
carries the final contents of that local set. -/
def loadCookiesCall (_st : ProcState) (fd : Option (List String))
    (doc : HarDoc) : (List CookieObj × List String) × ProcState :=
  let r := loadEntries fd [] doc.entries
  ((r.1, r.2.1), ⟨r.2.2⟩)

/-- Spec-side reading (§3, §8 of the spec): first-occurrence-wins
deduplication of a flat cookie sequence by key, starting from a set of
already-claimed keys. -/
def dedupFirst (seen : List String) : List RawCookie → List RawCookie
  | [] => []
  | c :: cs =>
    if cookieKey c ∈ seen then dedupFirst seen cs
    else c :: dedupFirst (cookieKey c :: seen) cs

/-- Spec-side reading (§4.1 of the spec): the flat stream of raw cookies of
the entries that pass the domain filter, in entry order. -/
def cookieStream (fd : Option (List String)) (doc : HarDoc) :
    List RawCookie :=
  (doc.entries.filter fun e => domainKept fd (e.url.getD (""))).flatMap
    Entry.cookies

/-- Spec-side reading of the claimed domain notion: the host component of
the URL, ignoring scheme and port — the authority with any user-info
(through the last `@`) and any `:port` tail removed. -/
def specHostOf (url : String) : String :=
  let n := (netlocOf url).toList
  let afterUser := if n.contains '@' then (n.reverse.takeWhile fun c => c ≠ '@').reverse else n
  String.mk (afterUser.takeWhile fun c => c ≠ ':')


/-- Returns `true` exactly on numeric JSON values. -/
def isNumericJ : JVal → Bool
  | .jnum _ => true
  | _ => false

/-- The values the normalized `expires` field actually takes: numeric,
null, or boolean — never a string and never a composite value. -/
def expiresAdmissible : JVal → Bool
  | .jstr _ => false
  | .jcomposite => false
  | _ => true

lemma processCookies_append (seen : List String) (xs ys : List RawCookie) :
    processCookies seen (xs ++ ys) =
      ((processCookies seen xs).1 ++
         (processCookies (processCookies seen xs).2.2 ys).1,
       (processCookies seen xs).2.1 ++
         (processCookies (processCookies seen xs).2.2 ys).2.1,
       (processCookies (processCookies seen xs).2.2 ys).2.2) := by
  induction xs generalizing seen with
  | nil => simp [processCookies]
  | cons c cs ih =>
    by_cases h : cookieKey c ∈ seen
    · simp [processCookies, h, ih]
    · simp [processCookies, h, ih]

lemma loadEntries_eq_flat (fd : Option (List String)) (seen : List String)
    (es : List Entry) :
    loadEntries fd seen es =
      processCookies seen
        ((es.filter fun e => domainKept fd (e.url.getD (""))).flatMap
          Entry.cookies) := by
  induction es generalizing seen with
  | nil => simp [loadEntries, processCookies]
  | cons e es ih =>
    by_cases h : domainKept fd (e.url.getD (""))
    · simp [loadEntries, h, ih, List.filter_cons, processCookies_append]
    · simp [loadEntries, h, ih, List.filter_cons]

lemma processCookies_fst (seen : List String) (cs : List RawCookie) :
    (processCookies seen cs).1 =
      (dedupFirst seen cs).map fun c => (normalizeCookie c).1 := by
  induction cs generalizing seen with
  | nil => simp [processCookies, dedupFirst]
  | cons c cs ih =>
    by_cases h : cookieKey c ∈ seen <;>
      simp [processCookies, dedupFirst, h, ih]

lemma dedupFirst_keys_fresh (cs : List RawCookie) (seen : List String) :
    ((dedupFirst seen cs).map cookieKey).Nodup ∧
      ∀ k ∈ (dedupFirst seen cs).map cookieKey, k ∉ seen := by
  induction cs generalizing seen with
  | nil => simp [dedupFirst]
  | cons c cs ih =>
    by_cases h : cookieKey c ∈ seen
    · simpa [dedupFirst, h] using ih seen
    · have hih := ih (cookieKey c :: seen)
      refine ⟨?_, ?_⟩
      · simp only [dedupFirst, h, if_false, List.map_cons, List.nodup_cons]
        refine ⟨fun hmem => ?_, hih.1⟩
        exact (hih.2 _ hmem) (List.mem_cons_self _ _)
      · intro k hk
        simp only [dedupFirst, h, if_false, List.map_cons, List.mem_cons] at hk
        rcases hk with hk | hk
        · subst hk; exact h
        · exact fun hks => (hih.2 _ hk) (List.mem_cons_of_mem _ hks)

lemma loadCookiesPure_fst (fd : Option (List String)) (doc : HarDoc) :
    (loadCookiesPure fd doc).1 =
      (dedupFirst [] (cookieStream fd doc)).map fun c =>
        (normalizeCookie c).1 := by
  show (loadEntries fd [] doc.entries).1 = _
  rw [loadEntries_eq_flat]
  exact processCookies_fst _ _

lemma expiresAdmissible_norm (x : Option JVal) :
    expiresAdmissible (expiresNorm x).1 = true := by
  match x with
  | none => rfl
  | some .jnull => rfl
  | some (.jbool b) => rfl
  | some (.jnum q) => rfl
  | some .jcomposite => rfl
  | some (.jstr s) =>
    cases hp : pyFloat s <;> simp [expiresNorm, hp, expiresAdmissible]

lemma extractUrlsGo_eq_filterMap (fd : Option (List String))
    (sf : Option (List Int)) (es : List Entry) :
    extractUrlsGo fd sf es =
      (es.filter fun e =>
        statusKept sf (e.status.getD 0) && domainKept fd (e.url.getD (""))).map
        fun e => e.url.getD ("") := by
  induction es with
  | nil => simp [extractUrlsGo]
  | cons e es ih =>
    by_cases h1 : statusKept sf (e.status.getD 0) <;>
      by_cases h2 : domainKept fd (e.url.getD ("")) <;>
        simp [extractUrlsGo, h1, h2, ih, List.filter_cons]

/-- C1 (counterexample): a cookie whose raw `expires` is JSON `null` is
present and not coercible to a float, so the claim requires the output
sentinel `-1`; the code instead emits the record with `expires` still
`null` — neither numeric nor the sentinel — because the
`expires_value is not None` guard skips coercion. -/
theorem c1_expires_counterexample :
    ((loadCookiesPure none
        ⟨[{ url := some ("http://a/"),
            cookies := [{ name := some ("sid"), domain := some ("d"),
                          expires := some JVal.jnull }],
            status := some 200 }]⟩).1.map fun c => c.expires) = [JVal.jnull]
      ∧ isNumericJ JVal.jnull = false
      ∧ (JVal.jnull == JVal.jnum (pyInt (-1))) = false := by
  decide

/-- C1 (amended): every emitted record's `expires` is numeric, `null`
(raw JSON null passed through unchanged), or a boolean (passed through
unchanged, Python booleans being `int` instances) — never a string or a
composite value; an absent raw value yields `-1` without warning; the
numeric string `"1700000000"` yields the number `1700000000.0` without
warning; a string that `float()` rejects yields `-1` with a warning; a
raw JSON `null` is emitted as `null` without warning. -/
theorem c1_expires_amended (fd : Option (List String)) (doc : HarDoc)
    (s : String) (hs : pyFloat s = none) :
    ((loadCookiesPure fd doc).1.all fun c => expiresAdmissible c.expires)
        = true
      ∧ expiresNorm none = (.jnum (pyInt (-1)), false)
      ∧ expiresNorm (some (.jstr ("1700000000")))
          = (.jnum (pyInt 1700000000), false)
      ∧ expiresNorm (some (.jstr s)) = (.jnum (pyInt (-1)), true)
      ∧ expiresNorm (some .jnull) = (.jnull, false) := by
  refine ⟨?_, rfl, by decide, by simp [expiresNorm, hs], rfl⟩
  rw [List.all_eq_true]
  intro c hc
  rw [loadCookiesPure_fst] at hc
  obtain ⟨raw, -, rfl⟩ := List.mem_map.mp hc
  exact expiresAdmissible_norm raw.expires

/-- Witness for `c1_expires_amended` at a concrete document and the
concrete uncoercible string `"not-a-number"`. -/
theorem c1_expires_amended_witness :
    pyFloat ("not-a-number") = none
      ∧ (((loadCookiesPure none
            ⟨[{ url := some ("http://a/"),
                cookies := [{ name := some ("n"),
                              expires := some (JVal.jstr ("oops")) }] }]⟩).1.all
              fun c => expiresAdmissible c.expires) = true
          ∧ expiresNorm none = (.jnum (pyInt (-1)), false)
          ∧ expiresNorm (some (.jstr ("1700000000")))
              = (.jnum (pyInt 1700000000), false)
          ∧ expiresNorm (some (.jstr ("not-a-number")))
              = (.jnum (pyInt (-1)), true)
          ∧ expiresNorm (some .jnull) = (.jnull, false)) :=
  ⟨by decide,
   c1_expires_amended none
     ⟨[{ url := some ("http://a/"),
         cookies := [{ name := some ("n"),
                       expires := some (JVal.jstr ("oops")) }] }]⟩
     "not-a-number" (by decide)⟩

/-- C2 (counterexample): the deduplication key is the single interpolated
string `name@domain`, so the distinct pairs `("a@b", "c")` and
`("a", "b@c")` collide on the key `"a@b@c"`; the second cookie is dropped
even though its (name, domain) pair differs, contradicting the claim that
cookies with a distinct pair are never dropped by deduplication. -/
theorem c2_dedup_counterexample :
    ((loadCookiesPure none
        ⟨[{ url := some ("http://x/"),
            cookies := [{ name := some ("a@b"), domain := some ("c") },
                        { name := some ("a"), domain := some ("b@c") }] }]⟩).1.map
        fun c => (c.name, c.domain)) = [(some ("a@b"), some ("c"))]
      ∧ ((some ("a"), some ("b@c"))
          = ((some ("a@b") : Option String), (some ("c") : Option String)))
        = False := by
  constructor
  · decide
  · simp

/-- C2 (amended): the emitted sequence equals the normalization of the
first-occurrence-wins deduplication of the kept entries' request-cookie
stream, where the deduplication key is the interpolated string
`name@domain` (absent fields rendering as `"None"`) rather than the
(name, domain) pair — the two coincide except when a name or domain itself
contains `@`; at most one record is emitted per key. -/
theorem c2_dedup_amended (fd : Option (List String)) (doc : HarDoc) :
    (loadCookiesPure fd doc).1 =
        (dedupFirst [] (cookieStream fd doc)).map
          (fun c => (normalizeCookie c).1)
      ∧ ((dedupFirst [] (cookieStream fd doc)).map cookieKey).Nodup :=
  ⟨loadCookiesPure_fst fd doc, (dedupFirst_keys_fresh _ _).1⟩

/-- C3 (counterexample): for the URL `http://example.com:8080/x` the host
component ignoring scheme and port is `example.com`, which ends with the
supplied filter entry `example.com`, so the claim requires the entry to be
kept; the code matches against `urlparse(url).netloc`, which is
`example.com:8080`, and drops the entry in both operations. -/
theorem c3_domain_counterexample :
    extractUrlsPure (some ["example.com"]) none
        ⟨[{ url := some ("http://example.com:8080/x"), status := some 200 }]⟩
        = []
      ∧ specHostOf ("http://example.com:8080/x") = "example.com"
      ∧ strEndsWith (specHostOf ("http://example.com:8080/x")) "example.com"
          = true
      ∧ (loadCookiesPure (some ["example.com"])
          ⟨[{ url := some ("http://example.com:8080/x"),
              cookies := [{ name := some ("sid"),
                            domain := some ("example.com") }] }]⟩).1 = [] := by
  decide

/-- C3 (amended): the domain of an entry is the full authority (netloc)
component of its request URL — the substring after `//` up to the next
`/`, `?` or `#`, empty when the URL has no `//` — which keeps any port and
user-info; when a non-empty filter is supplied an entry is kept iff this
string ends with at least one suffix (case-sensitive), and an absent or
empty filter excludes nothing; in both operations the filter's entire
effect is restriction to the entries it keeps. -/
theorem c3_domain_amended (ds : List String) (url : String)
    (fd : Option (List String)) (sf : Option (List Int)) (doc : HarDoc) :
    domainKept none url = true
      ∧ domainKept (some []) url = true
      ∧ domainKept (some ds) url
          = (ds.isEmpty || ds.any fun d => strEndsWith (netlocOf url) d)
      ∧ extractUrlsPure fd sf doc
          = extractUrlsPure none sf
              ⟨doc.entries.filter fun e => domainKept fd (e.url.getD (""))⟩
      ∧ loadCookiesPure fd doc
          = loadCookiesPure none
              ⟨doc.entries.filter fun e => domainKept fd (e.url.getD (""))⟩ := by
  refine ⟨rfl, rfl, ?_, ?_, ?_⟩
  · cases ds with
    | nil => rfl
    | cons d ds => simp [domainKept]
  · simp only [extractUrlsPure, extractUrlsGo_eq_filterMap,
      List.filter_filter]
    apply congrArg
    apply List.filter_congr
    intro e _
    simp [domainKept]
  · simp only [loadCookiesPure, loadEntries_eq_flat]
    have h : (doc.entries.filter fun e =>
          domainKept fd (e.url.getD (""))).filter
            (fun e => domainKept none (e.url.getD ("")))
        = doc.entries.filter fun e => domainKept fd (e.url.getD ("")) := by
      apply List.filter_eq_self.mpr
      intro e _
      rfl
    rw [h]

/-- C4: the URL extraction returns exactly the request URLs (read with
default `''`) of the entries whose status (read with default `0`) passes
the status filter and whose URL passes the domain filter, as a filter of
the entry sequence followed by a map — file order and multiplicity
preserved, no deduplication. -/
theorem c4_urls_postcondition (fd : Option (List String))
    (sf : Option (List Int)) (doc : HarDoc) :
    extractUrlsPure fd sf doc =
      (doc.entries.filter fun e =>
        statusKept sf (e.status.getD 0)
          && domainKept fd (e.url.getD (""))).map fun e => e.url.getD ("") :=
  extractUrlsGo_eq_filterMap fd sf doc.entries

/-- C5: when the path resolves to no existing file, both operations
terminate with the `FileNotFoundError` outcome, JSON decoding is never
attempted, and no partial result, logging, or retry occurs within the
call. -/
theorem c5_missing_file (fs : String → FileContent) (path : String)
    (fd : Option (List String)) (sf : Option (List Int)) (ctx : BrowserCtx)
    (h : fs path = .missing) :
    HarLoader.load_cookies_from_har fs path fd ctx
        = ⟨.fileNotFound, false, false⟩
      ∧ HarLoader.extract_urls_from_har fs path fd sf
        = ⟨.fileNotFound, false, false⟩ := by
  constructor <;>
    simp [HarLoader.load_cookies_from_har, HarLoader.extract_urls_from_har, h]

/-- Witness for `c5_missing_file` on the everywhere-missing filesystem. -/
theorem c5_missing_file_witness :
    (fun _ : String => FileContent.missing) "a.har" = FileContent.missing
      ∧ (HarLoader.load_cookies_from_har (fun _ => .missing) "a.har" none
            ⟨fun _ => false⟩ = ⟨.fileNotFound, false, false⟩
         ∧ HarLoader.extract_urls_from_har (fun _ => .missing) "a.har" none
            none = ⟨.fileNotFound, false, false⟩) :=
  ⟨rfl, c5_missing_file (fun _ => .missing) "a.har" none none
    ⟨fun _ => false⟩ rfl⟩

/-- C6: on an existing file that is not decodable JSON, the cookie path
logs the decode failure and re-raises it, while the URL path propagates it
directly without logging; in both, the call is fatal — it never reaches a
normal return, so no partial result is produced. -/
theorem c6_parse_failure (fs : String → FileContent) (path : String)
    (fd : Option (List String)) (sf : Option (List Int)) (ctx : BrowserCtx)
    (h : fs path = .invalidJson) :
    HarLoader.load_cookies_from_har fs path fd ctx
        = ⟨.parseError, true, true⟩
      ∧ HarLoader.extract_urls_from_har fs path fd sf
        = ⟨.parseError, true, false⟩ := by
  constructor <;>
    simp [HarLoader.load_cookies_from_har, HarLoader.extract_urls_from_har, h]

/-- Witness for `c6_parse_failure` on the everywhere-undecodable
filesystem. -/
theorem c6_parse_failure_witness :
    (fun _ : String => FileContent.invalidJson) "a.har"
        = FileContent.invalidJson
      ∧ (HarLoader.load_cookies_from_har (fun _ => .invalidJson) "a.har"
            none ⟨fun _ => false⟩ = ⟨.parseError, true, true⟩
         ∧ HarLoader.extract_urls_from_har (fun _ => .invalidJson) "a.har"
            none none = ⟨.parseError, true, false⟩) :=
  ⟨rfl, c6_parse_failure (fun _ => .invalidJson) "a.har" none none
    ⟨fun _ => false⟩ rfl⟩

/-- C7: with a null session handle, or a session whose browser context is
unobtainable, `load_from_har` returns normally in the soft-fail state
without attempting extraction; with a usable context, the call succeeds
exactly when the delegated extraction-and-injection call returns normally,
and otherwise ends in the logged-and-re-raised state. -/
theorem c7_adapter_policy (fs : String → FileContent) (path : String)
    (fd : Option (List String)) (ctx : BrowserCtx) :
    HarExtension.load_from_har none fs path fd = (.softFail, false)
      ∧ HarExtension.load_from_har (some ⟨none⟩) fs path fd
          = (.softFail, false)
      ∧ HarExtension.load_from_har (some ⟨some ctx⟩) fs path fd
          = (if (HarLoader.load_cookies_from_har fs path fd ctx).result.isOk
              then (.success, true) else (.raisedLogged, true)) := by
  refine ⟨rfl, rfl, ?_⟩
  simp only [HarExtension.load_from_har]
  cases h : (HarLoader.load_cookies_from_har fs path fd ctx).result <;>
    simp [Outcome.isOk]

/-- C8: cookie extraction is idempotent across invocations — the
deduplication set is created fresh and locally per call, so a second call
on the same document returns the identical sequence whatever state the
first call left behind, and every call's output coincides with the pure
extraction function. -/
theorem c8_idempotence (st : ProcState) (fd : Option (List String))
    (doc : HarDoc) :
    (loadCookiesCall st fd doc).1
        = (loadCookiesCall (loadCookiesCall st fd doc).2 fd doc).1
      ∧ (loadCookiesCall st fd doc).1 = loadCookiesPure fd doc :=
  ⟨rfl, rfl⟩

/-- C9: the wrapper's declared defaults are no domain filter and status
filter `[200]`, so calling it without a status filter yields exactly the
URLs of entries with status 200; the loader's own default status filter is
`None`, which admits entries of every status. -/
theorem c9_status_defaults (fs : String → FileContent) (path : String)
    (doc : HarDoc) :
    HarExtension.extract_urls_from_har_default fs path
        = HarLoader.extract_urls_from_har fs path none (some [200])
      ∧ loaderExtractUrlsDefault fs path
        = HarLoader.extract_urls_from_har fs path none none
      ∧ extractUrlsPure none (some [200]) doc
        = ((doc.entries.filter fun e => decide (e.status.getD 0 = 200)).map
            fun e => e.url.getD (""))
      ∧ extractUrlsPure none none doc
        = doc.entries.map (fun e => e.url.getD ("")) := by
  refine ⟨rfl, rfl, ?_, ?_⟩
  · rw [show extractUrlsPure none (some [200]) doc = _ from
      extractUrlsGo_eq_filterMap none (some [200]) doc.entries]
    apply congrArg
    apply List.filter_congr
    intro e _
    simp [statusKept, domainKept, List.contains, List.elem_eq_mem,
      List.mem_singleton]
  · rw [show extractUrlsPure none none doc = _ from
      extractUrlsGo_eq_filterMap none none doc.entries]
    simp [statusKept, domainKept]

/-- C10: passing an empty list as either filter is falsy in the code's
`if filter:` guards, so it behaves exactly like passing no filter — every
entry is admitted — in URL extraction (for both filters) and in cookie
extraction (for the domain filter). -/
theorem c10_empty_filters (doc : HarDoc) (sf : Option (List Int))
    (fd : Option (List String)) :
    extractUrlsPure (some []) sf doc = extractUrlsPure none sf doc
      ∧ extractUrlsPure fd (some []) doc = extractUrlsPure fd none doc
      ∧ loadCookiesPure (some []) doc = loadCookiesPure none doc := by
  refine ⟨?_, ?_, ?_⟩
  · simp only [extractUrlsPure, extractUrlsGo_eq_filterMap]
    apply congrArg
    apply List.filter_congr
    intro e _
    rfl
  · simp only [extractUrlsPure, extractUrlsGo_eq_filterMap]
    apply congrArg
    apply List.filter_congr
    intro e _
    rfl
  · simp only [loadCookiesPure, loadEntries_eq_flat]
    have h : (doc.entries.filter fun e => domainKept (some []) (e.url.getD ("")))
        = doc.entries.filter fun e => domainKept none (e.url.getD ("")) :=
      List.filter_congr fun e _ => rfl
    rw [h]
